import Mathlib

/-!
# Verification of the F5-TTS socket streaming server

Shallow embedding of `src/f5_tts/socket_server.py`: the chunk-splitting
logic of `TTSStreamingProcessor.generate_stream` (lines 59–95) and the
per-connection request loop of `handle_client` (lines 98–126).

The speech synthesis itself (`infer_batch_process`) is an external
collaborator; only its observable outcome (a finite sample sequence plus a
sample rate, or an exception) is modelled.  Sample values are opaque to the
chunking code (it only slices and measures the sequence), so samples are
represented by integers.
-/

/-- Python `range(0, stop, step)` for `step ≥ 1`, as the list of its
elements: `⌈stop/step⌉` indices `0, step, 2*step, …`.
(`(stop + step - 1) / step` is the ceiling of `stop / step` in `ℕ`.) -/
def pyRange (stop step : ℕ) : List ℕ :=
  (List.range ((stop + step - 1) / step)).map (fun k => k * step)

/-- One iteration of the `for i in range(0, len(audio_chunk), chunk_size)`
loop of `generate_stream` (lines 87–95): take the slice
`audio_chunk[i : i + chunk_size]`, replace it by `audio_chunk[i:]` when
`i + chunk_size >= len(audio_chunk)` (the final-window rule), and yield it
only if it is non-empty. -/
def loopBody (audio_chunk : List ℤ) (chunk_size : ℕ) (i : ℕ)
    (acc : List (List ℤ)) : List (List ℤ) :=
  let chunk := (audio_chunk.drop i).take chunk_size
  let chunk := if audio_chunk.length ≤ i + chunk_size then audio_chunk.drop i else chunk
  if 0 < chunk.length then chunk :: acc else acc

/-- The chunks yielded by the `for` loop of `generate_stream`
(lines 87–95), in emission order. -/
def loopChunks (audio_chunk : List ℤ) (chunk_size : ℕ) : List (List ℤ) :=
  (pyRange audio_chunk.length chunk_size).foldr (loopBody audio_chunk chunk_size) []

/-- The chunk splitting performed by `generate_stream` (lines 80–95) once
inference has produced `audio_chunk`: if `len(audio_chunk) < chunk_size`,
pack and yield the whole sequence (even when it is empty) and return;
otherwise iterate the `for` loop.  The value is the list of yielded chunks
(each chunk the sample slice whose packed bytes are sent); `none` models
the `ValueError` that `range(0, len(audio_chunk), 0)` raises when
`chunk_size == 0`. -/
def generate_stream (audio_chunk : List ℤ) (chunk_size : ℕ) :
    Option (List (List ℤ)) :=
  if audio_chunk.length < chunk_size then some [audio_chunk]
  else if chunk_size = 0 then none
  else some (loopChunks audio_chunk chunk_size)

/-- Python `int()` applied to a rational: truncation toward zero
(`Int.tdiv` is T-division). -/
def pyInt (q : ℚ) : ℤ := q.num.tdiv q.den

/-- `chunk_size = int(final_sample_rate * play_steps_in_s)` (line 78).
The code applies no lower bound to this value. -/
def chunk_size_py (final_sample_rate : ℕ) (play_steps_in_s : ℚ) : ℤ :=
  pyInt ((final_sample_rate : ℚ) * play_steps_in_s)

/-- Closed form of the loop's output: chunk `k` is
`audio_chunk[k*chunk_size : k*chunk_size + chunk_size]`, for
`k < ⌈len/chunk_size⌉`. -/
def chunkMap (audio_chunk : List ℤ) (chunk_size : ℕ) : List (List ℤ) :=
  (List.range ((audio_chunk.length + chunk_size - 1) / chunk_size)).map
    (fun k => (audio_chunk.drop (k * chunk_size)).take chunk_size)

/-- Python `data.strip()` (line 107): remove leading and trailing
whitespace. -/
def py_strip (s : String) : String :=
  String.mk (((s.data.dropWhile Char.isWhitespace).reverse.dropWhile
    Char.isWhitespace).reverse)

/-- The observable actions of `handle_client` on one connection, in
order: invoking the synthesizer (the generator body runs
`infer_batch_process` at its first resumption, line 68), each
`client_socket.sendall` of a packed chunk (line 112) or of a literal byte
string (line 115), the two logging sites (lines 118 and 123), and the
final `client_socket.close()` (line 126). -/
inductive Event : Type
  | synthCalled (text : String)
  | sentAudio (chunk : List ℤ)
  | sentMarker (bytes : List ℕ)
  | logInner
  | logOuter
  | closedSocket
deriving DecidableEq

/-- ASCII bytes of the terminator literal `b"END_OF_AUDIO"` (line 115). -/
def terminatorBytes : List ℕ := "END_OF_AUDIO".data.map Char.toNat

/-- Environment model of one request's synthesis and socket writes:
either the synthesizer raises at the generator's first resumption
(`fail`), or it returns a sample sequence, the chunk size is computed from
the sample rate (line 78), and `failAt` gives the index of the first
`sendall` call of this request that raises (counting the per-chunk sends
then the terminator send; `none` or an index past the terminator means
every write succeeds). -/
inductive SynthResult : Type
  | fail
  | ok (audio_chunk : List ℤ) (chunk_size : ℕ) (failAt : Option ℕ)
deriving DecidableEq

/-- One blocking `client_socket.recv(1024).decode("utf-8")` (line 103):
either the bytes are not valid UTF-8 (`decode` raises), or a decoded
string is produced — the empty string exactly when the peer closed
(a non-empty read of valid UTF-8 never decodes to an empty string).
A text read carries the environment's outcome for the request it starts. -/
inductive Step : Type
  | recvInvalid
  | recv (data : String) (res : SynthResult)
deriving DecidableEq

/-- How the `while True` loop of `handle_client` (lines 101–120) ends:
still blocked awaiting a request (the script provides no further reads),
a `break` (zero-length read, line 104, or inner error handler, line 120),
or an exception escaping the loop into the outer handler (line 122). -/
inductive LoopExit : Type
  | stillRunning
  | broke
  | raised
deriving DecidableEq

/-- The events of one request body (lines 107–120, the inner `try`): the
generator is iterated — its first resumption runs the synthesizer and
computes `chunk_size` — and every yielded chunk is written with `sendall`,
then the terminator is written.  Any exception (synthesizer failure,
`ValueError` from a zero `chunk_size`, or a failing write) is caught by the
inner handler, which logs and breaks.  Returns the emitted events and
whether the loop `break`s.  A failing write at index `j ≤ cs.length` means
the first `j` chunk sends succeeded and the next `sendall` (a chunk for
`j < cs.length`, the terminator for `j = cs.length`) raised; in both
cases the events are the `j` successful chunk sends then the inner log. -/
def processRequest (text : String) (res : SynthResult) : List Event × Bool :=
  match res with
  | SynthResult.fail => ([Event.synthCalled text, Event.logInner], true)
  | SynthResult.ok audio_chunk chunk_size failAt =>
    match generate_stream audio_chunk chunk_size, failAt with
    | none, _ => ([Event.synthCalled text, Event.logInner], true)
    | some cs, none =>
      (Event.synthCalled text :: (cs.map Event.sentAudio ++ [Event.sentMarker terminatorBytes]),
        false)
    | some cs, some j =>
      if j ≤ cs.length then
        (Event.synthCalled text :: ((cs.take j).map Event.sentAudio ++ [Event.logInner]), true)
      else
        (Event.synthCalled text :: (cs.map Event.sentAudio ++ [Event.sentMarker terminatorBytes]),
          false)

/-- The `while True` request loop of `handle_client` (lines 101–120), run
against a script of reads: a zero-length read (`if not data`) breaks; an
undecodable read raises out of the loop; otherwise the text is stripped
and the request is processed, and on success the loop continues with the
next read. -/
def requestLoop : List Step → List Event × LoopExit
  | [] => ([], LoopExit.stillRunning)
  | Step.recvInvalid :: _ => ([], LoopExit.raised)
  | Step.recv data res :: rest =>
    if data = "" then ([], LoopExit.broke)
    else
      let p := processRequest (py_strip data) res
      if p.2 then (p.1, LoopExit.broke)
      else (p.1 ++ (requestLoop rest).1, (requestLoop rest).2)

/-- `handle_client` (lines 98–126): the request loop inside
`try … except … finally`.  An exception escaping the loop is logged by the
outer handler; the `finally` closes the socket on every exit path.  When
the script leaves the loop still blocked on `recv`, the function has not
returned and no close has happened yet. -/
def handle_client (script : List Step) : List Event :=
  match requestLoop script with
  | (evts, LoopExit.stillRunning) => evts
  | (evts, LoopExit.broke) => evts ++ [Event.closedSocket]
  | (evts, LoopExit.raised) => evts ++ [Event.logOuter, Event.closedSocket]

/-- The terminator is written exactly once, strictly after every other
byte of the request: the event list ends with the terminator send and
contains no other terminator send. -/
def terminatorLast (evts : List Event) : Prop :=
  ∃ pre, evts = pre ++ [Event.sentMarker terminatorBytes] ∧
    Event.sentMarker terminatorBytes ∉ pre

/-- The shape demanded of the chunking output: a payload of `1 ≤ N < C`
samples becomes the single chunk `[audio_chunk]`; a payload of `N ≥ C`
samples becomes `⌈N/C⌉` chunks (`(N + C - 1) / C` in `ℕ`), every chunk
before the last of exactly `C` samples, the last of `N mod C` samples
(`C` when `C` divides `N`), concatenating in emission order back to the
payload. -/
def chunkShape (audio_chunk : List ℤ) (chunk_size : ℕ) : Prop :=
  (1 ≤ audio_chunk.length → audio_chunk.length < chunk_size →
    generate_stream audio_chunk chunk_size = some [audio_chunk]) ∧
  (chunk_size ≤ audio_chunk.length →
    ∃ chunks, generate_stream audio_chunk chunk_size = some chunks ∧
      chunks.length = (audio_chunk.length + chunk_size - 1) / chunk_size ∧
      (∀ (j : ℕ) (hj : j < chunks.length), j + 1 < chunks.length →
        (chunks.get ⟨j, hj⟩).length = chunk_size) ∧
      (∀ (hne : 0 < chunks.length),
        (chunks.get ⟨chunks.length - 1, Nat.sub_lt hne Nat.one_pos⟩).length
          = if audio_chunk.length % chunk_size = 0 then chunk_size
            else audio_chunk.length % chunk_size) ∧
      chunks.flatten = audio_chunk)

/-- Indices produced by the loop's `range` stay strictly below the payload
length: `k < ⌈N/c⌉` implies `k * c < N`. -/
theorem mul_lt_of_lt_ceilDiv (N c k : ℕ) (hc : 0 < c)
    (hk : k < (N + c - 1) / c) : k * c < N := by
  rcases Nat.eq_zero_or_pos N with h0 | h0
  · subst h0
    have : (0 + c - 1) / c = 0 := Nat.div_eq_of_lt (by omega)
    omega
  · have h1 : k + 1 ≤ (N + c - 1) / c := hk
    have h2 : (k + 1) * c ≤ ((N + c - 1) / c) * c := Nat.mul_le_mul_right c h1
    have h3 : ((N + c - 1) / c) * c ≤ N + c - 1 := Nat.div_mul_le_self _ _
    have h4 : (k + 1) * c = k * c + c := Nat.succ_mul k c
    omega

/-- Every element of `pyRange N c` is a valid start index into the
payload. -/
theorem pyRange_mem_lt (N c : ℕ) (hc : 0 < c) (i : ℕ)
    (hi : i ∈ pyRange N c) : i < N := by
  rcases List.mem_map.mp hi with ⟨k, hk, rfl⟩
  exact mul_lt_of_lt_ceilDiv N c k hc (List.mem_range.mp hk)

/-- For a start index inside the payload, the loop body always emits the
plain slice `audio_chunk[i : i + c]`: the final-window override coincides
with the clamped slice, and the emptiness guard never fires. -/
theorem loopBody_eq (audio_chunk : List ℤ) (c : ℕ) (hc : 0 < c) (i : ℕ)
    (hi : i < audio_chunk.length) (acc : List (List ℤ)) :
    loopBody audio_chunk c i acc = (audio_chunk.drop i).take c :: acc := by
  simp only [loopBody]
  by_cases h : audio_chunk.length ≤ i + c
  · have hlen : (audio_chunk.drop i).length ≤ c := by
      rw [List.length_drop]; omega
    have hpos : 0 < (audio_chunk.drop i).length := by
      rw [List.length_drop]; omega
    rw [if_pos h, if_pos hpos, List.take_of_length_le hlen]
  · rw [if_neg h]
    have hpos : 0 < ((audio_chunk.drop i).take c).length := by
      rw [List.length_take, List.length_drop]; omega
    rw [if_pos hpos]

/-- Folding the loop body over any list of in-range indices is the same
as mapping the slice over it. -/
theorem foldr_loopBody_eq_map (audio_chunk : List ℤ) (c : ℕ) (hc : 0 < c) :
    ∀ l : List ℕ, (∀ i ∈ l, i < audio_chunk.length) →
      l.foldr (loopBody audio_chunk c) []
        = l.map (fun i => (audio_chunk.drop i).take c) := by
  intro l
  induction l with
  | nil => intro _; rfl
  | cons a l ih =>
    intro h
    rw [List.foldr_cons, List.map_cons,
      ih (fun i hi => h i (List.mem_cons_of_mem a hi)),
      loopBody_eq audio_chunk c hc a (h a (List.mem_cons_self a l))]

/-- The loop's output in closed form. -/
theorem loopChunks_eq_chunkMap (audio_chunk : List ℤ) (c : ℕ) (hc : 0 < c) :
    loopChunks audio_chunk c = chunkMap audio_chunk c := by
  unfold loopChunks
  rw [foldr_loopBody_eq_map audio_chunk c hc _
    (fun i hi => pyRange_mem_lt audio_chunk.length c hc i hi)]
  unfold pyRange chunkMap
  rw [List.map_map]
  rfl

/-- For `c ≥ 1` and `c ≤ N`, `generate_stream` reaches the loop and
yields the closed-form chunks. -/
theorem generate_stream_eq_chunkMap (audio_chunk : List ℤ) (c : ℕ)
    (hc : 0 < c) (hcN : c ≤ audio_chunk.length) :
    generate_stream audio_chunk c = some (chunkMap audio_chunk c) := by
  unfold generate_stream
  rw [if_neg (by omega), if_neg (by omega), loopChunks_eq_chunkMap audio_chunk c hc]

/-- Concatenating the closed-form chunks restores the payload
(strong induction packaged as induction on a bound `m` on the number of
chunks). -/
theorem chunkMap_flatten_aux (c : ℕ) (hc : 0 < c) :
    ∀ (m : ℕ) (xs : List ℤ), xs.length ≤ m * c → (chunkMap xs c).flatten = xs := by
  intro m
  induction m with
  | zero =>
    intro xs hxs
    have h0 : xs.length = 0 := by omega
    have hceil : (xs.length + c - 1) / c = 0 := by
      rw [h0]; exact Nat.div_eq_of_lt (by omega)
    unfold chunkMap
    rw [hceil]
    simp only [List.range_zero, List.map_nil, List.flatten_nil]
    exact (List.eq_nil_of_length_eq_zero h0).symm
  | succ m ih =>
    intro xs hxs
    rcases Nat.eq_zero_or_pos xs.length with h0 | h0
    · have hceil : (xs.length + c - 1) / c = 0 := by
        rw [h0]; exact Nat.div_eq_of_lt (by omega)
      unfold chunkMap
      rw [hceil]
      simp only [List.range_zero, List.map_nil, List.flatten_nil]
      exact (List.eq_nil_of_length_eq_zero h0).symm
    · have hceil : (xs.length + c - 1) / c = (xs.length - 1) / c + 1 := by
        have h1 : xs.length + c - 1 = (xs.length - 1) + c := by omega
        rw [h1, Nat.add_div_right _ hc]
      have hdroplen : (xs.drop c).length = xs.length - c := List.length_drop c xs
      have htailceil : ((xs.drop c).length + c - 1) / c = (xs.length - 1) / c := by
        rw [hdroplen]
        rcases le_or_lt c xs.length with h | h
        · congr 1; omega
        · have hz : xs.length - c = 0 := by omega
          rw [hz]
          rw [Nat.div_eq_of_lt (by omega), Nat.div_eq_of_lt (by omega)]
      have htailbound : (xs.drop c).length ≤ m * c := by
        have h5 : (m + 1) * c = m * c + c := Nat.succ_mul m c
        omega
      have htail := ih (xs.drop c) htailbound
      unfold chunkMap at htail ⊢
      rw [hceil, List.range_succ_eq_map, List.map_cons, List.flatten_cons,
        Nat.zero_mul, List.drop_zero, List.map_map]
      rw [htailceil] at htail
      have hmaps :
          (List.range ((xs.length - 1) / c)).map
              ((fun k => (xs.drop (k * c)).take c) ∘ Nat.succ)
            = (List.range ((xs.length - 1) / c)).map
              (fun k => ((xs.drop c).drop (k * c)).take c) := by
        refine List.map_congr_left ?_
        intro k _
        have h6 : Nat.succ k * c = k * c + c := Nat.succ_mul k c
        simp only [Function.comp_apply, h6, List.drop_drop]
        rw [Nat.add_comm (k * c) c]
      rw [hmaps, htail, List.take_append_drop]

/-- Concatenating the chunks of the closed form restores the payload. -/
theorem chunkMap_flatten (audio_chunk : List ℤ) (c : ℕ) (hc : 0 < c) :
    (chunkMap audio_chunk c).flatten = audio_chunk :=
  chunkMap_flatten_aux c hc audio_chunk.length audio_chunk
    (Nat.le_mul_of_pos_right audio_chunk.length hc)

/-- Number of chunks in the closed form. -/
theorem chunkMap_length (audio_chunk : List ℤ) (c : ℕ) :
    (chunkMap audio_chunk c).length = (audio_chunk.length + c - 1) / c := by
  unfold chunkMap
  rw [List.length_map, List.length_range]

/-- The `j`-th chunk of the closed form. -/
theorem chunkMap_get (audio_chunk : List ℤ) (c : ℕ) (j : ℕ)
    (hj : j < (chunkMap audio_chunk c).length) :
    (chunkMap audio_chunk c).get ⟨j, hj⟩ = (audio_chunk.drop (j * c)).take c := by
  simp only [List.get_eq_getElem, chunkMap, List.getElem_map, List.getElem_range]

/-- Every chunk before the last has exactly `chunk_size` samples. -/
theorem chunkMap_get_length (xs : List ℤ) (c : ℕ) (hc : 0 < c) (j : ℕ)
    (hj1 : j + 1 < (xs.length + c - 1) / c) :
    ((xs.drop (j * c)).take c).length = c := by
  have h1 : (j + 1) * c < xs.length := mul_lt_of_lt_ceilDiv _ c (j + 1) hc hj1
  have h2 : (j + 1) * c = j * c + c := Nat.succ_mul j c
  rw [List.length_take, List.length_drop]
  omega

/-- The last chunk has `N mod c` samples, or a full `c` when `c ∣ N`. -/
theorem chunkMap_last_length (xs : List ℤ) (c : ℕ) (hc : 0 < c)
    (hcN : c ≤ xs.length) :
    ((xs.drop ((((xs.length + c - 1) / c) - 1) * c)).take c).length
      = if xs.length % c = 0 then c else xs.length % c := by
  have hq := Nat.div_add_mod xs.length c
  have hr : xs.length % c < c := Nat.mod_lt _ hc
  have hceil : (xs.length + c - 1) / c = (xs.length - 1) / c + 1 := by
    have h1 : xs.length + c - 1 = (xs.length - 1) + c := by omega
    rw [h1, Nat.add_div_right _ hc]
  have hfloor : (xs.length - 1) / c
      = if xs.length % c = 0 then xs.length / c - 1 else xs.length / c := by
    by_cases h : xs.length % c = 0
    · rw [if_pos h]
      have hq1 : 1 ≤ xs.length / c := by
        rw [Nat.le_div_iff_mul_le hc]; omega
      have h7 : c * (xs.length / c - 1) + c = c * (xs.length / c) := by
        have h8 := Nat.mul_succ c (xs.length / c - 1)
        have h9 : xs.length / c - 1 + 1 = xs.length / c := by omega
        rw [Nat.succ_eq_add_one, h9] at h8
        omega
      have h9 : xs.length - 1 = c * (xs.length / c - 1) + (c - 1) := by omega
      have h11 : (c - 1) / c = 0 := Nat.div_eq_of_lt (by omega)
      rw [h9, Nat.mul_add_div hc, h11]
      omega
    · rw [if_neg h]
      have h9 : xs.length - 1 = c * (xs.length / c) + (xs.length % c - 1) := by
        omega
      have h11 : (xs.length % c - 1) / c = 0 := Nat.div_eq_of_lt (by omega)
      rw [h9, Nat.mul_add_div hc, h11]
      omega
  rw [List.length_take, List.length_drop, hceil]
  simp only [Nat.add_sub_cancel]
  rw [hfloor]
  by_cases h : xs.length % c = 0
  · rw [if_pos h, if_pos h]
    have hq1 : 1 ≤ xs.length / c := by
      rw [Nat.le_div_iff_mul_le hc]; omega
    have h7 : (xs.length / c - 1) * c + c = (xs.length / c) * c := by
      have h8 := Nat.succ_mul (xs.length / c - 1) c
      have h9 : xs.length / c - 1 + 1 = xs.length / c := by omega
      rw [Nat.succ_eq_add_one, h9] at h8
      omega
    have h10 : c * (xs.length / c) = (xs.length / c) * c := Nat.mul_comm c _
    omega
  · rw [if_neg h, if_neg h]
    have h10 : c * (xs.length / c) = (xs.length / c) * c := Nat.mul_comm c _
    omega

/-- C1: for every sample sequence and every chunk size `C ≥ 1`,
concatenating, in emission order, the chunks yielded by `generate_stream`
reproduces the original sample sequence exactly — no loss, no duplication,
no reordering. -/
theorem C1_chunks_concat_exact (audio_chunk : List ℤ) (chunk_size : ℕ)
    (hc : 1 ≤ chunk_size) (chunks : List (List ℤ))
    (hg : generate_stream audio_chunk chunk_size = some chunks) :
    chunks.flatten = audio_chunk := by
  unfold generate_stream at hg
  by_cases h : audio_chunk.length < chunk_size
  · rw [if_pos h] at hg
    cases hg
    simp
  · rw [if_neg h, if_neg (by omega)] at hg
    cases hg
    rw [loopChunks_eq_chunkMap audio_chunk chunk_size hc]
    exact chunkMap_flatten audio_chunk chunk_size hc

/-- C1 witness at `audio_chunk = [1,2,3]`, `chunk_size = 2`. -/
theorem C1_witness : List.flatten [[(1 : ℤ), 2], [3]] = [1, 2, 3] :=
  C1_chunks_concat_exact [1, 2, 3] 2 (by decide) [[1, 2], [3]] (by decide)

/-- C2: for `1 ≤ N < C` exactly one chunk holding all `N` samples; for
`N ≥ C` exactly `⌈N/C⌉` chunks, every chunk but the last of exactly `C`
samples, the last of `N mod C` samples (a full `C` when `C ∣ N`), and the
chunks concatenate in order back to the payload. -/
theorem C2_chunk_sizes (audio_chunk : List ℤ) (chunk_size : ℕ)
    (hc : 1 ≤ chunk_size) : chunkShape audio_chunk chunk_size := by
  constructor
  · intro _ h2
    unfold generate_stream
    rw [if_pos h2]
  · intro hcN
    refine ⟨chunkMap audio_chunk chunk_size,
      generate_stream_eq_chunkMap audio_chunk chunk_size hc hcN,
      chunkMap_length audio_chunk chunk_size, ?_, ?_,
      chunkMap_flatten audio_chunk chunk_size hc⟩
    · intro j hj hj1
      rw [chunkMap_get]
      refine chunkMap_get_length audio_chunk chunk_size hc j ?_
      rw [chunkMap_length] at hj1
      exact hj1
    · intro _
      rw [chunkMap_get, chunkMap_length]
      exact chunkMap_last_length audio_chunk chunk_size hc hcN

/-- C2 witness at `audio_chunk = [1,2,3,4,5]`, `chunk_size = 2`. -/
theorem C2_witness : chunkShape [(1 : ℤ), 2, 3, 4, 5] 2 :=
  C2_chunk_sizes [1, 2, 3, 4, 5] 2 (by decide)

/-- Python `int()` agrees with the floor on non-negative rationals. -/
theorem pyInt_eq_floor (q : ℚ) (hq : 0 ≤ q) : pyInt q = Int.floor q := by
  unfold pyInt
  rw [Rat.floor_def]
  exact Int.tdiv_eq_ediv (Rat.num_nonneg.mpr hq) (Int.natCast_nonneg _)

/-- C5 counterexample: at sample rate 1 and chunk duration 0.5 s the code
computes `chunk_size = int(1 * 0.5) = 0` — there is no clamp to a minimum
of 1 — and the chunking step then errors (`range` with step 0 raises
`ValueError`) on the payload `[42]`. -/
theorem C5_counterexample :
    chunk_size_py 1 (1 / 2) = 0 ∧
    generate_stream [(42 : ℤ)] (chunk_size_py 1 (1 / 2)).toNat = none := by
  have h1 : chunk_size_py 1 (1 / 2) = 0 := by
    unfold chunk_size_py
    rw [pyInt_eq_floor _ (by norm_num)]
    norm_num
  refine ⟨h1, ?_⟩
  rw [h1]
  decide

/-- C5 amended: the chunk size is `int(R * D)` (the floor, for the
non-negative rates and durations that occur) with **no** minimum applied;
for any chunk size ≥ 1 the chunking is total on every payload, but for
chunk size 0 — which arises whenever `R * D < 1` — it raises on every
payload. -/
theorem C5_chunk_size_amended (final_sample_rate : ℕ) (play_steps_in_s : ℚ)
    (hD : 0 ≤ play_steps_in_s) (audio_chunk : List ℤ) (chunk_size : ℕ)
    (hc : 1 ≤ chunk_size) :
    chunk_size_py final_sample_rate play_steps_in_s
        = Int.floor ((final_sample_rate : ℚ) * play_steps_in_s) ∧
    (generate_stream audio_chunk chunk_size).isSome = true ∧
    generate_stream audio_chunk 0 = none := by
  refine ⟨?_, ?_, ?_⟩
  · unfold chunk_size_py
    exact pyInt_eq_floor _ (mul_nonneg (by positivity) hD)
  · unfold generate_stream
    by_cases h : audio_chunk.length < chunk_size
    · rw [if_pos h]; rfl
    · rw [if_neg h, if_neg (by omega)]; rfl
  · unfold generate_stream
    rw [if_neg (by omega)]
    simp

/-- C5 amended witness at `R = 24000`, `D = 1/2`, payload `[1]`,
chunk size 1. -/
theorem C5_witness :
    chunk_size_py 24000 (1 / 2) = Int.floor ((24000 : ℚ) * (1 / 2)) ∧
    (generate_stream [(1 : ℤ)] 1).isSome = true ∧
    generate_stream [(1 : ℤ)] 0 = none :=
  C5_chunk_size_amended 24000 (1 / 2) (by norm_num) [1] 1 (by decide)

/-- C6 counterexample: for the empty payload and chunk size 5 the
small-payload branch (lines 80–83) packs all zero samples and yields that
packed (empty) payload: exactly one chunk is emitted and it is
zero-length — not zero chunks. -/
theorem C6_counterexample :
    generate_stream ([] : List ℤ) 5 = some [[]] := by decide

/-- C6 amended: for `N = 0` (and any chunk size ≥ 1) exactly one chunk is
emitted and it holds zero samples — `struct.pack` of zero floats is the
empty byte string, so zero audio bytes reach the wire and the terminator
alone is observed; for a non-empty payload every emitted chunk is
non-empty. -/
theorem C6_empty_payload_amended (chunk_size : ℕ) (hc : 1 ≤ chunk_size)
    (audio_chunk : List ℤ) (hne : audio_chunk ≠ [])
    (chunks : List (List ℤ))
    (hg : generate_stream audio_chunk chunk_size = some chunks)
    (ch : List ℤ) (hch : ch ∈ chunks) :
    generate_stream ([] : List ℤ) chunk_size = some [[]] ∧ 0 < ch.length := by
  constructor
  · unfold generate_stream
    rw [if_pos (by simpa using hc)]
  · by_cases h : audio_chunk.length < chunk_size
    · unfold generate_stream at hg
      rw [if_pos h] at hg
      cases hg
      rcases List.mem_singleton.mp hch with rfl
      exact List.length_pos.mpr hne
    · rw [generate_stream_eq_chunkMap audio_chunk chunk_size hc (by omega)] at hg
      cases hg
      unfold chunkMap at hch
      rcases List.mem_map.mp hch with ⟨k, hk, rfl⟩
      have hlt := mul_lt_of_lt_ceilDiv audio_chunk.length chunk_size k hc
        (List.mem_range.mp hk)
      rw [List.length_take, List.length_drop]
      omega

/-- C6 amended witness at chunk size 3, payload `[7]`. -/
theorem C6_witness :
    generate_stream ([] : List ℤ) 3 = some [[]] ∧ 0 < [(7 : ℤ)].length :=
  C6_empty_payload_amended 3 (by decide) [7] (by decide) [[7]] (by decide)
    [7] (by decide)

/-- For chunk size ≥ 1 the chunking step yields some chunk list. -/
theorem generate_stream_total (audio_chunk : List ℤ) (chunk_size : ℕ)
    (hc : 1 ≤ chunk_size) :
    ∃ cs, generate_stream audio_chunk chunk_size = some cs := by
  unfold generate_stream
  by_cases h : audio_chunk.length < chunk_size
  · exact ⟨[audio_chunk], by rw [if_pos h]⟩
  · exact ⟨loopChunks audio_chunk chunk_size, by rw [if_neg h, if_neg (by omega)]⟩

/-- A failed synthesis: log and break, nothing sent. -/
theorem processRequest_fail_eq (text : String) :
    processRequest text SynthResult.fail
      = ([Event.synthCalled text, Event.logInner], true) := rfl

/-- A zero chunk size (`range` step 0): the generator raises during
iteration, after inference but before any send. -/
theorem processRequest_err_eq (text : String) (a : List ℤ) (c : ℕ)
    (f : Option ℕ) (hg : generate_stream a c = none) :
    processRequest text (SynthResult.ok a c f)
      = ([Event.synthCalled text, Event.logInner], true) := by
  cases f with
  | none => simp [processRequest, hg]
  | some j => simp [processRequest, hg]

/-- A request whose synthesis and every write succeed. -/
theorem processRequest_ok_none (text : String) (a : List ℤ) (c : ℕ)
    (cs : List (List ℤ)) (hg : generate_stream a c = some cs) :
    processRequest text (SynthResult.ok a c none)
      = (Event.synthCalled text ::
          (cs.map Event.sentAudio ++ [Event.sentMarker terminatorBytes]), false) := by
  simp [processRequest, hg]

/-- A request whose `j`-th write raises: the first `j` chunk sends
happened, then the inner handler logs and breaks. -/
theorem processRequest_write_fail (text : String) (a : List ℤ) (c : ℕ)
    (cs : List (List ℤ)) (j : ℕ) (hg : generate_stream a c = some cs)
    (hj : j ≤ cs.length) :
    processRequest text (SynthResult.ok a c (some j))
      = (Event.synthCalled text ::
          ((cs.take j).map Event.sentAudio ++ [Event.logInner]), true) := by
  simp [processRequest, hg, hj]

/-- A `failAt` index past the terminator write: every write succeeds. -/
theorem processRequest_ok_late (text : String) (a : List ℤ) (c : ℕ)
    (cs : List (List ℤ)) (j : ℕ) (hg : generate_stream a c = some cs)
    (hj : ¬j ≤ cs.length) :
    processRequest text (SynthResult.ok a c (some j))
      = (Event.synthCalled text ::
          (cs.map Event.sentAudio ++ [Event.sentMarker terminatorBytes]), false) := by
  simp [processRequest, hg, hj]

/-- Unfolding the request loop at a successfully served request. -/
theorem requestLoop_cons_ok (data : String) (hs : data ≠ "")
    (res : SynthResult) (hok : (processRequest (py_strip data) res).2 = false)
    (rest : List Step) :
    requestLoop (Step.recv data res :: rest)
      = ((processRequest (py_strip data) res).1 ++ (requestLoop rest).1,
         (requestLoop rest).2) := by
  simp only [requestLoop]
  rw [if_neg hs]
  simp [hok]

/-- Unfolding the request loop at a request whose body breaks. -/
theorem requestLoop_cons_broke (data : String) (hs : data ≠ "")
    (res : SynthResult) (hbrk : (processRequest (py_strip data) res).2 = true)
    (rest : List Step) :
    requestLoop (Step.recv data res :: rest)
      = ((processRequest (py_strip data) res).1, LoopExit.broke) := by
  simp only [requestLoop]
  rw [if_neg hs]
  simp [hbrk]

/-- An event that is neither the synthesizer call, nor a chunk send, nor
the given closing event, is absent from a request's event sequence. -/
theorem event_not_mem_request_events (e : Event) (text : String)
    (chs : List (List ℤ)) (tailEvt : Event)
    (h1 : e ≠ Event.synthCalled text) (h2 : ∀ ch, e ≠ Event.sentAudio ch)
    (h3 : e ≠ tailEvt) :
    e ∉ Event.synthCalled text :: (chs.map Event.sentAudio ++ [tailEvt]) := by
  intro hmem
  rcases List.mem_cons.mp hmem with h | h
  · exact h1 h
  · rcases List.mem_append.mp h with h4 | h4
    · rcases List.mem_map.mp h4 with ⟨x, _, hx⟩
      exact h2 x hx.symm
    · exact h3 (List.mem_singleton.mp h4)

/-- The request body never closes the socket itself. -/
theorem closedSocket_not_processRequest (text : String) (res : SynthResult) :
    Event.closedSocket ∉ (processRequest text res).1 := by
  cases res with
  | fail => rw [processRequest_fail_eq]; simp
  | ok a c f =>
    cases hg : generate_stream a c with
    | none => rw [processRequest_err_eq text a c f hg]; simp
    | some cs =>
      cases f with
      | none =>
        rw [processRequest_ok_none text a c cs hg]
        exact event_not_mem_request_events _ _ _ _ (by simp) (by simp) (by simp)
      | some j =>
        by_cases hj : j ≤ cs.length
        · rw [processRequest_write_fail text a c cs j hg hj]
          exact event_not_mem_request_events _ _ _ _ (by simp) (by simp) (by simp)
        · rw [processRequest_ok_late text a c cs j hg hj]
          exact event_not_mem_request_events _ _ _ _ (by simp) (by simp) (by simp)

/-- The request loop never closes the socket itself: only the `finally`
clause of `handle_client` does. -/
theorem closedSocket_not_requestLoop (script : List Step) :
    Event.closedSocket ∉ (requestLoop script).1 := by
  induction script with
  | nil => simp [requestLoop]
  | cons s rest ih =>
    cases s with
    | recvInvalid => simp [requestLoop]
    | recv data res =>
      by_cases hd : data = ""
      · subst hd; simp [requestLoop]
      · by_cases hb : (processRequest (py_strip data) res).2 = true
        · rw [requestLoop_cons_broke data hd res hb rest]
          exact closedSocket_not_processRequest _ _
        · rw [requestLoop_cons_ok data hd res (by simpa using hb) rest]
          simp only [List.mem_append]
          push_neg
          exact ⟨closedSocket_not_processRequest _ _, ih⟩

/-- C3: for every request whose synthesis and all chunk writes succeed
(the request body does not break the loop), the handler writes the
literal terminator bytes exactly once, strictly after all chunk bytes of
that request — the request's event sequence ends with the terminator send
and contains no other; a request that fails gets no terminator at all. -/
theorem C3_terminator_placement (text : String) (res : SynthResult) :
    ((processRequest text res).2 = false →
      terminatorLast (processRequest text res).1) ∧
    ((processRequest text res).2 = true →
      Event.sentMarker terminatorBytes ∉ (processRequest text res).1) := by
  constructor
  · intro hok
    cases res with
    | fail => rw [processRequest_fail_eq] at hok; simp at hok
    | ok a c f =>
      cases hg : generate_stream a c with
      | none => rw [processRequest_err_eq text a c f hg] at hok; simp at hok
      | some cs =>
        cases f with
        | none =>
          rw [processRequest_ok_none text a c cs hg]
          refine ⟨Event.synthCalled text :: cs.map Event.sentAudio, by simp, ?_⟩
          intro hmem
          rcases List.mem_cons.mp hmem with h | h
          · exact absurd h (by simp)
          · rcases List.mem_map.mp h with ⟨x, _, hx⟩
            exact absurd hx (by simp)
        | some j =>
          by_cases hj : j ≤ cs.length
          · rw [processRequest_write_fail text a c cs j hg hj] at hok
            simp at hok
          · rw [processRequest_ok_late text a c cs j hg hj]
            refine ⟨Event.synthCalled text :: cs.map Event.sentAudio, by simp, ?_⟩
            intro hmem
            rcases List.mem_cons.mp hmem with h | h
            · exact absurd h (by simp)
            · rcases List.mem_map.mp h with ⟨x, _, hx⟩
              exact absurd hx (by simp)
  · intro hbrk
    cases res with
    | fail => rw [processRequest_fail_eq]; simp
    | ok a c f =>
      cases hg : generate_stream a c with
      | none => rw [processRequest_err_eq text a c f hg]; simp
      | some cs =>
        cases f with
        | none =>
          rw [processRequest_ok_none text a c cs hg] at hbrk
          simp at hbrk
        | some j =>
          by_cases hj : j ≤ cs.length
          · rw [processRequest_write_fail text a c cs j hg hj]
            exact event_not_mem_request_events _ _ _ _ (by simp) (by simp) (by simp)
          · rw [processRequest_ok_late text a c cs j hg hj] at hbrk
            simp at hbrk

/-- C3 witness: a fully successful request carries the terminator last
and exactly once; a request with failed synthesis carries no terminator. -/
theorem C3_witness :
    terminatorLast (processRequest "hi" (SynthResult.ok [1, 2, 3] 2 none)).1 ∧
    Event.sentMarker terminatorBytes ∉ (processRequest "oops" SynthResult.fail).1 :=
  ⟨(C3_terminator_placement "hi" (SynthResult.ok [1, 2, 3] 2 none)).1 (by decide),
   (C3_terminator_placement "oops" SynthResult.fail).2 (by decide)⟩

/-- C4 counterexample: on the whitespace-only request `" "` the handler
strips the text to `""` and **does** invoke `generate_stream` — the
Synthesizer runs; there is no no-op shortcut in the code. -/
theorem C4_counterexample :
    Event.synthCalled ""
      ∈ handle_client [Step.recv " " (SynthResult.ok [1, 2] 2 none)] := by
  decide

/-- C4 amended: a non-empty read whose decoded text is empty or
whitespace-only is **not** short-circuited: the text is stripped to the
empty string and `generate_stream` is invoked with it (the request's
first event is the synthesizer call on `""`); when that call and all
writes succeed, the loop then continues with the remaining reads on the
still-open connection. -/
theorem C4_whitespace_amended (data : String) (hs : data ≠ "")
    (hw : py_strip data = "") (audio_chunk : List ℤ) (chunk_size : ℕ)
    (hc : 1 ≤ chunk_size) (rest : List Step) :
    requestLoop (Step.recv data (SynthResult.ok audio_chunk chunk_size none) :: rest)
        = ((processRequest "" (SynthResult.ok audio_chunk chunk_size none)).1
            ++ (requestLoop rest).1, (requestLoop rest).2) ∧
    (processRequest "" (SynthResult.ok audio_chunk chunk_size none)).1.head?
        = some (Event.synthCalled "") := by
  rcases generate_stream_total audio_chunk chunk_size hc with ⟨cs, hg⟩
  constructor
  · rw [← hw]
    exact requestLoop_cons_ok data hs _
      (by rw [hw, processRequest_ok_none "" audio_chunk chunk_size cs hg]) rest
  · rw [processRequest_ok_none "" audio_chunk chunk_size cs hg]
    rfl

/-- C4 amended witness at the whitespace-only request `" "`. -/
theorem C4_witness :
    requestLoop [Step.recv " " (SynthResult.ok [] 1 none)]
        = ((processRequest "" (SynthResult.ok [] 1 none)).1 ++ (requestLoop []).1,
           (requestLoop []).2) ∧
    (processRequest "" (SynthResult.ok [] 1 none)).1.head?
        = some (Event.synthCalled "") :=
  C4_whitespace_amended " " (by decide) (by decide) [] 1 (by decide) []

/-- C7: when the Synthesizer raises, the handler logs the failure, sends
no bytes at all for that request (no chunk, no terminator), serves no
further request regardless of what the client would have sent, and the
socket is closed. -/
theorem C7_synth_failure (data : String) (hs : data ≠ "") (rest : List Step) :
    handle_client (Step.recv data SynthResult.fail :: rest)
      = [Event.synthCalled (py_strip data), Event.logInner, Event.closedSocket] := by
  unfold handle_client
  rw [requestLoop_cons_broke data hs SynthResult.fail
    (by rw [processRequest_fail_eq]) rest]
  rw [processRequest_fail_eq]
  rfl

/-- C7 witness at request `"boom"` with a further read pending. -/
theorem C7_witness :
    handle_client [Step.recv "boom" SynthResult.fail, Step.recv "next" SynthResult.fail]
      = [Event.synthCalled (py_strip "boom"), Event.logInner, Event.closedSocket] :=
  C7_synth_failure "boom" (by decide) [Step.recv "next" SynthResult.fail]

/-- C8: a zero-length read (peer closed) exits the request loop with no
error — the trace is just the socket close — and on every exit path of
`handle_client` (loop break or escaped exception) the socket is closed
exactly once. -/
theorem C8_socket_closed (res : SynthResult) (rest : List Step)
    (script : List Step)
    (hexit : (requestLoop script).2 ≠ LoopExit.stillRunning) :
    handle_client (Step.recv "" res :: rest) = [Event.closedSocket] ∧
    (handle_client script).count Event.closedSocket = 1 := by
  constructor
  · rfl
  · have hnot : Event.closedSocket ∉ (requestLoop script).1 :=
      closedSocket_not_requestLoop script
    unfold handle_client
    rcases h : requestLoop script with ⟨evts, ex⟩
    rw [h] at hnot hexit
    cases ex with
    | stillRunning => exact absurd rfl hexit
    | broke =>
      show (evts ++ [Event.closedSocket]).count Event.closedSocket = 1
      rw [List.count_append, List.count_eq_zero.mpr hnot]
      decide
    | raised =>
      show (evts ++ [Event.logOuter, Event.closedSocket]).count Event.closedSocket = 1
      rw [List.count_append, List.count_eq_zero.mpr hnot]
      decide

/-- C8 witness: the one-read script whose single read is the peer's
close. -/
theorem C8_witness :
    handle_client [Step.recv "" SynthResult.fail] = [Event.closedSocket] ∧
    (handle_client [Step.recv "" SynthResult.fail]).count Event.closedSocket = 1 :=
  C8_socket_closed SynthResult.fail [] [Step.recv "" SynthResult.fail] (by decide)

/-- C9: after a request completes successfully (synthesis succeeded, all
chunk writes and the terminator write succeeded), the handler loops back
to the blocking read on the same socket: the remaining reads of the
script are served next, and with no further read the loop is again
blocked awaiting a request — the socket not closed. -/
theorem C9_connection_reuse (data : String) (hs : data ≠ "")
    (audio_chunk : List ℤ) (chunk_size : ℕ) (hc : 1 ≤ chunk_size)
    (rest : List Step) :
    requestLoop (Step.recv data (SynthResult.ok audio_chunk chunk_size none) :: rest)
        = ((processRequest (py_strip data) (SynthResult.ok audio_chunk chunk_size none)).1
            ++ (requestLoop rest).1, (requestLoop rest).2) ∧
    (requestLoop [Step.recv data (SynthResult.ok audio_chunk chunk_size none)]).2
        = LoopExit.stillRunning := by
  rcases generate_stream_total audio_chunk chunk_size hc with ⟨cs, hg⟩
  constructor
  · exact requestLoop_cons_ok data hs _
      (by rw [processRequest_ok_none _ audio_chunk chunk_size cs hg]) rest
  · rw [requestLoop_cons_ok data hs _
      (by rw [processRequest_ok_none _ audio_chunk chunk_size cs hg]) []]
    rfl

/-- C9 witness: a successful request followed by a pending read. -/
theorem C9_witness :
    requestLoop [Step.recv "hi" (SynthResult.ok [1, 2, 3] 2 none),
        Step.recv "" SynthResult.fail]
        = ((processRequest (py_strip "hi") (SynthResult.ok [1, 2, 3] 2 none)).1
            ++ (requestLoop [Step.recv "" SynthResult.fail]).1,
           (requestLoop [Step.recv "" SynthResult.fail]).2) ∧
    (requestLoop [Step.recv "hi" (SynthResult.ok [1, 2, 3] 2 none)]).2
        = LoopExit.stillRunning :=
  C9_connection_reuse "hi" (by decide) [1, 2, 3] 2 (by decide)
    [Step.recv "" SynthResult.fail]

/-- C10: a read of undecodable bytes raises at the `decode` call — at the
loop level, before the per-request handling — so the request loop emits
nothing for that request and raises out; the outer handler logs it, no
further read of the script is served, and the socket is still closed. -/
theorem C10_invalid_utf8 (rest : List Step) :
    requestLoop (Step.recvInvalid :: rest) = ([], LoopExit.raised) ∧
    handle_client (Step.recvInvalid :: rest)
      = [Event.logOuter, Event.closedSocket] :=
  ⟨rfl, rfl⟩
